import Mathlib

/-!
Verification of `scripts/gendockerfile.go`: the import-classification and
Dockerfile-generation utility.  Import paths are modelled as `List Char`
(Go strings); the Go `map[string]bool` is modelled as an association list
with distinct keys and overwrite-on-insert semantics.  The `go list -json`
subprocess is modelled as the input stream of decoded records, and the two
run modes (write / diff) as a pure function from that stream and the prior
state of the output file to an exit status and a final file state.
-/

namespace Gendockerfile

/-- Go string, as a sequence of characters. -/
abbrev GoString := List Char

/-- `strings.IndexRune s r`: index of the first occurrence of `r` in `s`.
Go returns `-1` when absent; we model that with `Option Nat`
(`none` = `-1`, `some i` = index `i`). -/
def indexRune (s : GoString) (r : Char) : Option Nat :=
  match s with
  | [] => none
  | c :: cs => if c = r then some 0 else (indexRune cs r).map (· + 1)

/-- `isExternal` from `gendockerfile.go`:
`r := strings.IndexRune(importPath, '/'); if r == -1 { return false };
return strings.IndexRune(importPath[:r], '.') != -1`. -/
def isExternal (importPath : GoString) : Bool :=
  match indexRune importPath '/' with
  | none => false
  | some r => (indexRune (importPath.take r) '.').isSome

/-- One record decoded from the `go list -json` stream: the fields of
`go/build.Package` that `gendockerfile.go` reads. -/
structure Package where
  ImportPath : GoString
  Imports : List GoString
  TestImports : List GoString
  XTestImports : List GoString

/-- The Go `map[string]bool` `externalImports`, modelled as an association
list with distinct keys; `mapInsert` overwrites an existing binding, as a Go
map assignment does. -/
abbrev Table := List (GoString × Bool)

def mapLookup (m : Table) (k : GoString) : Option Bool :=
  match m with
  | [] => none
  | (k', v) :: rest => if k' = k then some v else mapLookup rest k

def mapInsert (m : Table) (k : GoString) (v : Bool) : Table :=
  match m with
  | [] => [(k, v)]
  | (k', v') :: rest =>
      if k' = k then (k, v) :: rest else (k', v') :: mapInsert rest k v

/-- The inner loop body: `if _, ok := externalImports[importPath]; ok
{ continue }; externalImports[importPath] = isExternal(importPath)`. -/
def processImport (m : Table) (importPath : GoString) : Table :=
  if (mapLookup m importPath).isSome then m
  else mapInsert m importPath (isExternal importPath)

/-- The import lists scanned for one package:
`append(append(pkg.Imports, pkg.TestImports...), pkg.XTestImports...)`. -/
def pkgImports (pkg : Package) : List GoString :=
  pkg.Imports ++ pkg.TestImports ++ pkg.XTestImports

/-- One iteration of the decode loop:
`externalImports[pkg.ImportPath] = false` (unconditional overwrite), then
the import loop over `pkgImports`. -/
def processPackage (m : Table) (pkg : Package) : Table :=
  (pkgImports pkg).foldl processImport (mapInsert m pkg.ImportPath false)

/-- The classification table after the whole decode loop, starting from
`make(map[string]bool)`. -/
def buildTable (pkgs : List Package) : Table :=
  pkgs.foldl processPackage []

/-- The own import paths of all scanned records, in stream order. -/
def ownPaths (pkgs : List Package) : List GoString :=
  pkgs.map (·.ImportPath)

/-- All paths occurring in some record's import lists, in stream order. -/
def allImports (pkgs : List Package) : List GoString :=
  pkgs.flatMap pkgImports

/-- The collection loop `for importPath, isExternal := range externalImports
{ if isExternal { data.Imports = append(data.Imports, importPath) } }`,
applied to one enumeration `e` of the map's entries (Go map iteration order
is unspecified, so theorems quantify over permutations of the table). -/
def externalImportsOf (e : Table) : List GoString :=
  (e.filter (·.2)).map (·.1)

/-- `sort.Strings(data.Imports)`: sort lexicographically ascending. -/
def sortStrings (l : List GoString) : List GoString :=
  l.insertionSort (· ≤ ·)

/-- The literal text `dockerfileTemplate` emits before the `range` block. -/
def templateHead : GoString :=
  ("# Code generated by gendockerfile. DO NOT EDIT.\nFROM golang:latest\nWORKDIR /go/src/go.elastic.co/apm\n").toList

/-- Per-iteration text of the `range` block:
`RUN go get -v {{.}}` followed by the newline before `{{end}}`. -/
def templateItem (p : GoString) : GoString :=
  ("RUN go get -v ").toList ++ p ++ ['\n']

/-- The literal text after the `range` block: the newline that follows
`{{end}}` in the template source, then the `ADD` line. -/
def templateTail : GoString :=
  ("\nADD . /go/src/go.elastic.co/apm\n").toList

/-- Executing `dockerfileTemplate` on `{Imports := imports}`. -/
def dockerfileOutput (imports : List GoString) : GoString :=
  templateHead ++ (imports.map templateItem).flatten ++ templateTail

/-- The full pipeline from decoded records to rendered bytes. -/
def renderedOutput (pkgs : List Package) : GoString :=
  dockerfileOutput (sortStrings (externalImportsOf (buildTable pkgs)))

/-- Split a character stream at newline characters (for stating the
line-level shape of the rendered document). -/
def splitLines : GoString → List GoString
  | [] => [[]]
  | c :: cs =>
    if c = '\n' then [] :: splitLines cs
    else
      match splitLines cs with
      | [] => [[c]]
      | l :: ls => (c :: l) :: ls

/-- First line of the rendered document. -/
def warningLine : GoString :=
  ("# Code generated by gendockerfile. DO NOT EDIT.").toList

/-- Second line of the rendered document. -/
def fromLine : GoString :=
  ("FROM golang:latest").toList

/-- Third line of the rendered document. -/
def workdirLine : GoString :=
  ("WORKDIR /go/src/go.elastic.co/apm").toList

/-- One dependency-fetch directive line. -/
def runDirective (p : GoString) : GoString :=
  ("RUN go get -v ").toList ++ p

/-- The trailing directive copying the source tree. -/
def addDirective : GoString :=
  ("ADD . /go/src/go.elastic.co/apm").toList

/-- The document shape claimed by the spec, written from the spec's words
(three-line preamble, then exactly one `RUN` line per import, then the
trailing `ADD` directive, nothing else): for comparison with
`dockerfileOutput`, which also emits a blank separator line. -/
def claimedExactDocument (imports : List GoString) : GoString :=
  warningLine ++ ['\n'] ++ fromLine ++ ['\n'] ++ workdirLine ++ ['\n'] ++
    (imports.map templateItem).flatten ++ addDirective ++ ['\n']

/-- The spec-side external set for one record stream: the distinct paths
occurring in some record's import lists that pass the externality test and
are not the own import path of any scanned record, sorted. -/
def specExternals (pkgs : List Package) : List GoString :=
  sortStrings (((allImports pkgs).dedup).filter
    (fun p => isExternal p && decide (p ∉ ownPaths pkgs)))

/-- How the decode loop ends: clean end of stream (`io.EOF`) or a record
that fails to decode (any other error). -/
inductive DecodeEnd where
  | eof
  | decodeError

/-- The `go list -json` output, as seen through `json.Decoder`: the
successfully decoded records followed by how the stream ended. -/
structure MetaStream where
  records : List Package
  endState : DecodeEnd

/-- Observable outcome of one run: whether the process exits successfully
(`log.Fatal` exits non-zero), the final state of the output file
(`none` = absent), and whether a difference was reported in diff mode. -/
structure GenResult where
  exitOk : Bool
  file : Option GoString
  diffReported : Bool

/-- One run of `main` over a decoded metadata stream.  The decode loop runs
to completion before any file operation, so a decode error aborts with the
output file untouched.  In write mode `os.Create` truncates/creates the file
and the template is rendered into it.  In diff mode the template is rendered
into an in-memory buffer and `diff -c outFile -` is run: the external diff
utility is modelled by its contract — it exits zero and prints nothing iff
the file's content equals the buffer, exits non-zero otherwise (including
when the file is absent), and `cmd.Run` surfaces that exit status, which
`log.Fatal` turns into a failed run. -/
def runGen (stream : MetaStream) (diffFlag : Bool) (file0 : Option GoString) :
    GenResult :=
  match stream.endState with
  | .decodeError => { exitOk := false, file := file0, diffReported := false }
  | .eof =>
    let rendered := renderedOutput stream.records
    if diffFlag then
      match file0 with
      | none => { exitOk := false, file := none, diffReported := false }
      | some onDisk =>
        if onDisk = rendered then
          { exitOk := true, file := some onDisk, diffReported := false }
        else
          { exitOk := false, file := some onDisk, diffReported := true }
    else
      { exitOk := true, file := some rendered, diffReported := false }

/-- Concrete record: package A of the spec's worked example (own path with a
dot-free first segment, importing one external path and `fmt`). -/
def pkgA : Package :=
  { ImportPath := ("apm").toList
    Imports := [("example.com/foo/bar").toList, ("fmt").toList]
    TestImports := []
    XTestImports := [] }

/-- Concrete record: package B of the spec's worked example. -/
def pkgB : Package :=
  { ImportPath := ("apm/internal").toList
    Imports := [("example.com/foo/bar").toList, ("golang.org/x/tools").toList]
    TestImports := []
    XTestImports := [] }

/-- Concrete record whose import list mentions `x.com/y` (an external-looking
path). -/
def pkgX : Package :=
  { ImportPath := ("apm").toList
    Imports := [("x.com/y").toList]
    TestImports := []
    XTestImports := [] }

/-- Concrete record whose own import path is `x.com/y`. -/
def pkgY : Package :=
  { ImportPath := ("x.com/y").toList
    Imports := []
    TestImports := []
    XTestImports := [] }

theorem indexRune_eq_none {s : GoString} {r : Char} :
    indexRune s r = none ↔ r ∉ s := by
  induction s with
  | nil => simp [indexRune]
  | cons c cs ih =>
    by_cases h : c = r
    · simp [indexRune, h]
    · have h' : r ≠ c := fun hr => h hr.symm
      simp [indexRune, h, Option.map_eq_none, ih, h']

theorem take_indexRune {s : GoString} {r : Char} {i : Nat}
    (h : indexRune s r = some i) : s.take i = s.takeWhile (fun c => c ≠ r) := by
  induction s generalizing i with
  | nil => simp [indexRune] at h
  | cons c cs ih =>
    by_cases hc : c = r
    · simp [indexRune, hc] at h
      subst h
      simp [List.takeWhile, hc]
    · simp [indexRune, hc] at h
      obtain ⟨j, hj, rfl⟩ := h
      simp [List.takeWhile, hc, ih hj]

theorem indexRune_isSome {s : GoString} {r : Char} :
    (indexRune s r).isSome = true ↔ r ∈ s := by
  rw [Option.isSome_iff_ne_none, ne_eq, indexRune_eq_none, not_not]

/-- C1: `isExternal` marks a path external iff it contains a `'/'` and the
segment before the first `'/'` contains a `'.'`; a path with no `'/'` is
always internal. -/
theorem isExternal_iff_first_segment_has_dot (p : GoString) :
    (isExternal p = true ↔
      '/' ∈ p ∧ '.' ∈ p.takeWhile (fun c => c ≠ '/')) ∧
    ('/' ∉ p → isExternal p = false) := by
  constructor
  · unfold isExternal
    cases h : indexRune p '/' with
    | none =>
      have : '/' ∉ p := indexRune_eq_none.mp h
      simp [this]
    | some r =>
      have hmem : '/' ∈ p := indexRune_isSome.mp (by simp [h])
      have ht := take_indexRune h
      simp [ht, indexRune_isSome, hmem]
  · intro hnp
    unfold isExternal
    rw [indexRune_eq_none.mpr hnp]

theorem isExternal_iff_first_segment_has_dot_witness :
    '/' ∉ ("fmt".toList : GoString) ∧ isExternal "fmt".toList = false :=
  ⟨by decide, (isExternal_iff_first_segment_has_dot "fmt".toList).2 (by decide)⟩

theorem mapLookup_insert_self (m : Table) (k : GoString) (v : Bool) :
    mapLookup (mapInsert m k v) k = some v := by
  induction m with
  | nil => simp [mapInsert, mapLookup]
  | cons kv rest ih =>
    by_cases h : kv.1 = k <;> simp [mapInsert, mapLookup, h, ih]

theorem mapLookup_insert_ne (m : Table) {k q : GoString} (v : Bool)
    (h : k ≠ q) : mapLookup (mapInsert m k v) q = mapLookup m q := by
  induction m with
  | nil => simp [mapInsert, mapLookup, h]
  | cons kv rest ih =>
    by_cases h' : kv.1 = k
    · simp [mapInsert, mapLookup, h', h]
    · simp [mapInsert, mapLookup, h', ih]

theorem mapInsert_cons_self (rest : Table) (k' : GoString) (v' v : Bool) :
    mapInsert ((k', v') :: rest) k' v = (k', v) :: rest := by
  simp [mapInsert]

theorem mapInsert_cons_ne (rest : Table) {k' k : GoString} (v' v : Bool)
    (h : k' ≠ k) :
    mapInsert ((k', v') :: rest) k v = (k', v') :: mapInsert rest k v := by
  simp [mapInsert, h]

theorem mem_keys_insert (m : Table) (k q : GoString) (v : Bool) :
    q ∈ (mapInsert m k v).map (·.1) ↔ q = k ∨ q ∈ m.map (·.1) := by
  induction m with
  | nil => simp [mapInsert]
  | cons kv rest ih =>
    obtain ⟨k', v'⟩ := kv
    by_cases h : k' = k
    · subst h
      rw [mapInsert_cons_self]
      simp only [List.map_cons, List.mem_cons]
      tauto
    · rw [mapInsert_cons_ne rest v' v h]
      simp only [List.map_cons, List.mem_cons, ih]
      tauto

theorem nodup_keys_insert {m : Table} (k : GoString) (v : Bool)
    (hm : (m.map (·.1)).Nodup) : ((mapInsert m k v).map (·.1)).Nodup := by
  induction m with
  | nil => simp [mapInsert]
  | cons kv rest ih =>
    obtain ⟨k', v'⟩ := kv
    simp only [List.map_cons, List.nodup_cons] at hm
    by_cases h : k' = k
    · subst h
      rw [mapInsert_cons_self]
      simp only [List.map_cons, List.nodup_cons]
      exact hm
    · rw [mapInsert_cons_ne rest v' v h]
      simp only [List.map_cons, List.nodup_cons]
      constructor
      · intro hk
        rcases (mem_keys_insert rest k k' v).mp hk with rfl | hk'
        · exact h rfl
        · exact hm.1 hk'
      · exact ih hm.2

theorem mem_ownPaths_cons {p : GoString} {pkg : Package} {rest : List Package} :
    p ∈ ownPaths (pkg :: rest) ↔ p = pkg.ImportPath ∨ p ∈ ownPaths rest := by
  simp [ownPaths]

theorem mem_allImports_cons {p : GoString} {pkg : Package} {rest : List Package} :
    p ∈ allImports (pkg :: rest) ↔ p ∈ pkgImports pkg ∨ p ∈ allImports rest := by
  simp [allImports]

theorem mapLookup_foldl_processImport (l : List GoString) (m : Table)
    (p : GoString) :
    mapLookup (l.foldl processImport m) p =
      if p ∈ l then some ((mapLookup m p).getD (isExternal p))
      else mapLookup m p := by
  induction l generalizing m with
  | nil => simp
  | cons q l' ih =>
    rw [List.foldl_cons, ih]
    by_cases hpq : p = q
    · subst hpq
      have hm' : mapLookup (processImport m p) p =
          some ((mapLookup m p).getD (isExternal p)) := by
        unfold processImport
        cases hv : mapLookup m p with
        | none => simp [hv, mapLookup_insert_self]
        | some v => simp [hv]
      by_cases hpl : p ∈ l' <;> simp [hpl, hm']
    · have hm' : mapLookup (processImport m q) p = mapLookup m p := by
        unfold processImport
        cases hv : mapLookup m q with
        | none => simp [hv, mapLookup_insert_ne m _ (fun hp => hpq hp.symm)]
        | some v => simp [hv]
      simp [hm', hpq, List.mem_cons]

theorem mapLookup_processPackage (m : Table) (pkg : Package) (p : GoString) :
    mapLookup (processPackage m pkg) p =
      if p = pkg.ImportPath then some false
      else if p ∈ pkgImports pkg then some ((mapLookup m p).getD (isExternal p))
      else mapLookup m p := by
  unfold processPackage
  rw [mapLookup_foldl_processImport]
  by_cases hp : p = pkg.ImportPath
  · rw [hp, mapLookup_insert_self]
    by_cases hi : pkg.ImportPath ∈ pkgImports pkg <;> simp [hi]
  · rw [mapLookup_insert_ne m false (fun h => hp h.symm)]
    simp [hp]

theorem mapLookup_foldl_processPackage (pkgs : List Package) (m : Table)
    (p : GoString) :
    mapLookup (pkgs.foldl processPackage m) p =
      if p ∈ ownPaths pkgs then some false
      else if p ∈ allImports pkgs then some ((mapLookup m p).getD (isExternal p))
      else mapLookup m p := by
  induction pkgs generalizing m with
  | nil => simp [ownPaths, allImports]
  | cons pkg rest ih =>
    rw [List.foldl_cons, ih]
    have hpp := mapLookup_processPackage m pkg p
    by_cases hown : p ∈ ownPaths rest
    · simp [mem_ownPaths_cons, hown]
    · by_cases hp : p = pkg.ImportPath
      · simp only [hp, if_pos rfl] at hpp
        simp [mem_ownPaths_cons, hown, hp, hpp]
      · simp only [hp, if_neg hp] at hpp
        by_cases hpi : p ∈ pkgImports pkg
        · simp only [if_pos hpi] at hpp
          by_cases hra : p ∈ allImports rest <;>
            simp [mem_ownPaths_cons, mem_allImports_cons, hown, hp, hpi, hra,
              hpp]
        · simp only [if_neg hpi] at hpp
          by_cases hra : p ∈ allImports rest <;>
            simp [mem_ownPaths_cons, mem_allImports_cons, hown, hp, hpi, hra,
              hpp]

/-- Final value of each key in the classification table: an own import path
is always `false` (the last record's own-path write wins), any other path
that occurs in some import list carries `isExternal`, and nothing else is
present. -/
theorem mapLookup_buildTable (pkgs : List Package) (p : GoString) :
    mapLookup (buildTable pkgs) p =
      if p ∈ ownPaths pkgs then some false
      else if p ∈ allImports pkgs then some (isExternal p)
      else none := by
  unfold buildTable
  rw [mapLookup_foldl_processPackage]
  simp [mapLookup]

theorem nodup_keys_processImport (m : Table) (q : GoString)
    (hm : (m.map (·.1)).Nodup) : ((processImport m q).map (·.1)).Nodup := by
  unfold processImport
  split
  · exact hm
  · exact nodup_keys_insert q _ hm

theorem nodup_keys_foldl {β : Type} (f : Table → β → Table)
    (hf : ∀ m b, (m.map (·.1)).Nodup → ((f m b).map (·.1)).Nodup) :
    ∀ (l : List β) (m : Table), (m.map (·.1)).Nodup →
      ((l.foldl f m).map (·.1)).Nodup
  | [], _, hm => hm
  | b :: l', m, hm => nodup_keys_foldl f hf l' (f m b) (hf m b hm)

theorem nodup_keys_processPackage (m : Table) (pkg : Package)
    (hm : (m.map (·.1)).Nodup) : ((processPackage m pkg).map (·.1)).Nodup := by
  unfold processPackage
  exact nodup_keys_foldl processImport nodup_keys_processImport _ _
    (nodup_keys_insert _ _ hm)

theorem nodup_keys_buildTable (pkgs : List Package) :
    ((buildTable pkgs).map (·.1)).Nodup :=
  nodup_keys_foldl processPackage nodup_keys_processPackage pkgs []
    (by simp)

theorem mem_pair_iff_mapLookup {e : Table} (he : (e.map (·.1)).Nodup)
    {p : GoString} {v : Bool} : (p, v) ∈ e ↔ mapLookup e p = some v := by
  induction e with
  | nil => simp [mapLookup]
  | cons kv rest ih =>
    obtain ⟨k', v'⟩ := kv
    simp only [List.map_cons, List.nodup_cons] at he
    by_cases h : k' = p
    · subst h
      have hlook : mapLookup ((k', v') :: rest) k' = some v' := by
        simp [mapLookup]
      rw [hlook, List.mem_cons]
      constructor
      · rintro (heq | hmem')
        · injection heq with _ h2
          rw [h2]
        · exact absurd (List.mem_map.mpr ⟨(k', v), hmem', rfl⟩) he.1
      · intro hv
        injection hv with h2
        exact Or.inl (by rw [← h2])
    · have hlook : mapLookup ((k', v') :: rest) p = mapLookup rest p := by
        simp [mapLookup, h]
      rw [hlook, List.mem_cons, ih he.2]
      have hne : (p, v) ≠ (k', v') := by
        intro hc
        injection hc with h1 _
        exact h h1.symm
      tauto

theorem mem_externalImportsOf {e : Table} {p : GoString} :
    p ∈ externalImportsOf e ↔ (p, true) ∈ e := by
  simp only [externalImportsOf, List.mem_map, List.mem_filter]
  constructor
  · rintro ⟨⟨a, b⟩, ⟨hmem, hb⟩, rfl⟩
    simp only at hb
    exact hb ▸ hmem
  · intro h
    exact ⟨(p, true), ⟨h, rfl⟩, rfl⟩

theorem nodup_externalImportsOf {e : Table} (he : (e.map (·.1)).Nodup) :
    (externalImportsOf e).Nodup := by
  unfold externalImportsOf
  exact he.sublist ((List.filter_sublist e).map (·.1))

/-- C2 counterexample: `x.com/y` is first entered as an external import of
`pkgX` (value `true`), but processing the later record `pkgY`, whose own
path equals it, overwrites the entry to `false` — the claimed
never-overwritten invariant fails. -/
theorem own_path_overwrites_earlier_external :
    mapLookup (buildTable [pkgX]) ("x.com/y").toList = some true ∧
    mapLookup (buildTable [pkgX, pkgY]) ("x.com/y").toList = some false := by
  decide

/-- C2 amended: the import loop never changes an entry that already exists,
and a path recorded as a scanned package's own import path ends up `false`;
but a record's own-import-path write is unconditional, so an entry first
recorded as external is reset to internal when a later record's own import
path equals it (see the counterexample). -/
theorem import_loop_preserves_entries (pkgs : List Package) (p : GoString) :
    (∀ (m : Table) (v : Bool) (l : List GoString), mapLookup m p = some v →
      mapLookup (l.foldl processImport m) p = some v) ∧
    (p ∈ ownPaths pkgs → mapLookup (buildTable pkgs) p = some false) := by
  constructor
  · intro m v l hv
    rw [mapLookup_foldl_processImport]
    by_cases hl : p ∈ l <;> simp [hl, hv]
  · intro hown
    rw [mapLookup_buildTable]
    simp [hown]

theorem import_loop_preserves_entries_witness :
    mapLookup ((["x.com/y".toList]).foldl processImport
      [(("x.com/y").toList, true)]) ("x.com/y").toList = some true ∧
    mapLookup (buildTable [pkgX, pkgY]) ("x.com/y").toList = some false :=
  ⟨(import_loop_preserves_entries [pkgX, pkgY] ("x.com/y").toList).1
      [(("x.com/y").toList, true)] true ["x.com/y".toList] (by decide),
   (import_loop_preserves_entries [pkgX, pkgY] ("x.com/y").toList).2
      (by decide)⟩

/-- C3: the sorted external list handed to the template has no duplicates
and is lexicographically non-decreasing. -/
theorem rendered_list_nodup_sorted (pkgs : List Package) :
    (sortStrings (externalImportsOf (buildTable pkgs))).Nodup ∧
    List.Sorted (· ≤ ·) (sortStrings (externalImportsOf (buildTable pkgs))) :=
  ⟨(List.perm_insertionSort _ _).nodup_iff.mpr
      (nodup_externalImportsOf (nodup_keys_buildTable pkgs)),
   List.sorted_insertionSort _ _⟩

/-- C4: on the spec's two-record example the computed external list is
exactly `[example.com/foo/bar, golang.org/x/tools]`, and `fmt` is absent. -/
theorem example_stream_external_list :
    sortStrings (externalImportsOf (buildTable [pkgA, pkgB])) =
      [("example.com/foo/bar").toList, ("golang.org/x/tools").toList] ∧
    ("fmt").toList ∉ sortStrings (externalImportsOf (buildTable [pkgA, pkgB])) := by
  decide

/-- C9: the rendered bytes do not depend on the (unspecified) iteration
order of the classification map — any two enumerations of the final table
produce byte-identical output, so two runs on identical metadata agree. -/
theorem generation_deterministic (pkgs : List Package) (e₁ e₂ : Table)
    (h₁ : e₁.Perm (buildTable pkgs)) (h₂ : e₂.Perm (buildTable pkgs)) :
    dockerfileOutput (sortStrings (externalImportsOf e₁)) =
      dockerfileOutput (sortStrings (externalImportsOf e₂)) := by
  have hperm : (externalImportsOf e₁).Perm (externalImportsOf e₂) :=
    ((h₁.trans h₂.symm).filter _).map _
  have hsort : sortStrings (externalImportsOf e₁) =
      sortStrings (externalImportsOf e₂) :=
    List.eq_of_perm_of_sorted
      (((List.perm_insertionSort _ _).trans hperm).trans
        (List.perm_insertionSort _ _).symm)
      (List.sorted_insertionSort _ _) (List.sorted_insertionSort _ _)
  rw [hsort]

theorem generation_deterministic_witness :
    dockerfileOutput (sortStrings (externalImportsOf (buildTable [pkgA, pkgB]))) =
      dockerfileOutput (sortStrings (externalImportsOf
        ((buildTable [pkgA, pkgB]).reverse))) :=
  generation_deterministic [pkgA, pkgB] _ _ (List.Perm.refl _)
    ((buildTable [pkgA, pkgB]).reverse_perm)

/-- C10: the final external list is exactly the sorted set of distinct paths
that occur in some record's import lists, pass the externality test, and are
not the own import path of any record — and it is invariant under
reordering the record stream. -/
theorem external_list_characterization (pkgs pkgs' : List Package)
    (h : pkgs.Perm pkgs') :
    sortStrings (externalImportsOf (buildTable pkgs')) = specExternals pkgs := by
  have h₁ : (sortStrings (externalImportsOf (buildTable pkgs'))).Nodup :=
    (List.perm_insertionSort _ _).nodup_iff.mpr
      (nodup_externalImportsOf (nodup_keys_buildTable pkgs'))
  have h₂ : (specExternals pkgs).Nodup :=
    (List.perm_insertionSort _ _).nodup_iff.mpr
      ((List.nodup_dedup _).filter _)
  refine List.eq_of_perm_of_sorted
    ((List.perm_ext_iff_of_nodup h₁ h₂).mpr ?_)
    (List.sorted_insertionSort _ _) (List.sorted_insertionSort _ _)
  intro p
  have hown : p ∈ ownPaths pkgs ↔ p ∈ ownPaths pkgs' := by
    simp [ownPaths, List.mem_map, h.mem_iff]
  have himp : p ∈ allImports pkgs ↔ p ∈ allImports pkgs' := by
    simp [allImports, List.mem_flatMap, h.mem_iff]
  simp only [specExternals, sortStrings, List.mem_insertionSort]
  rw [mem_externalImportsOf,
    mem_pair_iff_mapLookup (nodup_keys_buildTable pkgs'),
    mapLookup_buildTable]
  rw [List.mem_filter, List.mem_dedup]
  by_cases ho : p ∈ ownPaths pkgs'
  · simp [ho, hown.mpr ho]
  · by_cases hi : p ∈ allImports pkgs'
    · simp [ho, hi, himp.mpr hi, hown, decide_eq_true_iff]
    · simp [ho, hi]
      intro hc _
      exact absurd (himp.mp hc) hi

theorem external_list_characterization_witness :
    sortStrings (externalImportsOf (buildTable [pkgB, pkgA])) =
      specExternals [pkgA, pkgB] :=
  external_list_characterization [pkgA, pkgB] [pkgB, pkgA]
    (List.Perm.swap pkgB pkgA [])

/-- C5: a stream ending in a decode error makes the run abort with a failed
exit, and the output file's prior state (present or absent) is untouched, in
either mode. -/
theorem decode_error_aborts (stream : MetaStream) (diffFlag : Bool)
    (file0 : Option GoString) (h : stream.endState = DecodeEnd.decodeError) :
    (runGen stream diffFlag file0).exitOk = false ∧
    (runGen stream diffFlag file0).file = file0 := by
  unfold runGen
  rw [h]
  exact ⟨rfl, rfl⟩

theorem decode_error_aborts_witness :
    (runGen ⟨[pkgA], DecodeEnd.decodeError⟩ false (some [])).exitOk = false ∧
    (runGen ⟨[pkgA], DecodeEnd.decodeError⟩ false (some [])).file = some [] :=
  decode_error_aborts ⟨[pkgA], DecodeEnd.decodeError⟩ false (some []) rfl

/-- C6: in diff mode, on a cleanly decoded stream, a run against an on-disk
file equal to the freshly rendered content exits successfully reporting no
difference, and a run against a differing file reports the difference and
exits with failure. -/
theorem diff_mode_exit_status (stream : MetaStream) (c : GoString)
    (heof : stream.endState = DecodeEnd.eof) :
    (c = renderedOutput stream.records →
      (runGen stream true (some c)).exitOk = true ∧
      (runGen stream true (some c)).diffReported = false) ∧
    (c ≠ renderedOutput stream.records →
      (runGen stream true (some c)).exitOk = false ∧
      (runGen stream true (some c)).diffReported = true) := by
  unfold runGen
  rw [heof]
  by_cases hc : c = renderedOutput stream.records <;> simp [hc]

theorem diff_mode_exit_status_witness :
    (runGen ⟨[], DecodeEnd.eof⟩ true (some (renderedOutput []))).exitOk = true ∧
    (runGen ⟨[], DecodeEnd.eof⟩ true (some (renderedOutput []))).diffReported
      = false :=
  (diff_mode_exit_status ⟨[], DecodeEnd.eof⟩ (renderedOutput []) rfl).1 rfl

/-- C7: in diff mode the output file is never created, truncated or written:
whatever its prior state, the run leaves it exactly as it was. -/
theorem diff_mode_preserves_file (stream : MetaStream)
    (file0 : Option GoString) : (runGen stream true file0).file = file0 := by
  obtain ⟨records, endState⟩ := stream
  cases endState with
  | eof =>
    cases file0 with
    | none => rfl
    | some c =>
      unfold runGen
      by_cases hc : c = renderedOutput records <;> simp [hc]
  | decodeError => rfl

/-- C8 counterexample: the template emits a blank separator line between the
`RUN` block and the `ADD` directive (the newline after `{{end}}`), so the
rendered bytes are not exactly the preamble, `RUN` lines and `ADD` line the
claim describes — already for an empty import list. -/
theorem rendered_document_not_claimed_exact :
    dockerfileOutput [] ≠ claimedExactDocument [] := by
  decide

theorem splitLines_cons (c : Char) (cs : GoString) :
    splitLines (c :: cs) =
      if c = '\n' then [] :: splitLines cs
      else
        match splitLines cs with
        | [] => [[c]]
        | l :: ls => (c :: l) :: ls := rfl

theorem splitLines_append (xs ys : GoString) (hx : '\n' ∉ xs) :
    splitLines (xs ++ '\n' :: ys) = xs :: splitLines ys := by
  induction xs with
  | nil => simp [splitLines]
  | cons c xs' ih =>
    simp only [List.mem_cons, not_or] at hx
    have hc : ¬(c = '\n') := fun h0 => hx.1 h0.symm
    rw [List.cons_append, splitLines_cons, if_neg hc, ih hx.2]

theorem splitLines_flatten_items (imports : List GoString) (rest : GoString)
    (h : ∀ p ∈ imports, '\n' ∉ p) :
    splitLines ((imports.map templateItem).flatten ++ rest) =
      imports.map runDirective ++ splitLines rest := by
  induction imports with
  | nil => simp
  | cons p ps ih =>
    have hnp : '\n' ∉ ("RUN go get -v ").toList ++ p := by
      intro hmem
      rcases List.mem_append.mp hmem with hin | hin
      · revert hin
        decide
      · exact h p (List.mem_cons_self p ps) hin
    have hshape : ((p :: ps).map templateItem).flatten ++ rest =
        (("RUN go get -v ").toList ++ p) ++
          '\n' :: ((ps.map templateItem).flatten ++ rest) := by
      simp [templateItem, List.append_assoc]
    rw [hshape, splitLines_append _ _ hnp,
      ih (fun q hq => h q (List.mem_cons_of_mem p hq))]
    rfl

/-- C8 amended: split at newlines, the rendered document is exactly the
three preamble lines, one `RUN go get -v` line per import in list order, a
blank separator line, the `ADD` directive line, and the empty tail left by
the document's final newline (for imports that do not themselves contain a
newline). -/
theorem rendered_document_line_shape (imports : List GoString)
    (h : ∀ p ∈ imports, '\n' ∉ p) :
    splitLines (dockerfileOutput imports) =
      [warningLine, fromLine, workdirLine] ++ imports.map runDirective ++
        [[], addDirective, []] := by
  have hh : templateHead =
      warningLine ++ '\n' :: (fromLine ++ '\n' :: (workdirLine ++ ['\n'])) := by
    decide
  have hshape : dockerfileOutput imports =
      warningLine ++ '\n' :: (fromLine ++ '\n' :: (workdirLine ++ '\n' ::
        ((imports.map templateItem).flatten ++ templateTail))) := by
    unfold dockerfileOutput
    rw [hh]
    simp [List.append_assoc]
  rw [hshape, splitLines_append _ _ (by decide),
    splitLines_append _ _ (by decide), splitLines_append _ _ (by decide),
    splitLines_flatten_items imports templateTail h]
  have htail : splitLines templateTail = [[], addDirective, []] := by decide
  rw [htail]
  simp

theorem rendered_document_line_shape_witness :
    splitLines (dockerfileOutput [("example.com/foo/bar").toList]) =
      [warningLine, fromLine, workdirLine] ++
        [("example.com/foo/bar").toList].map runDirective ++
        [[], addDirective, []] :=
  rendered_document_line_shape [("example.com/foo/bar").toList] (by decide)

end Gendockerfile
